import Mathlib

/-!
# Backend dispatch and run-manager start-up of `include/utils.hh`

A shallow embedding of the dispatcher `run_gpu_algorithm`, of its helpers
`from_string<int>` and `tolower`, and of `init_run_manager` /
`init_thread_data`, followed by theorems about them.

Conventions of the embedding

* `std::string` is `String`; `int` is `Int`, with the 32-bit range made explicit
  where the code can leave it (`from_string`).
* The function-local `static bool first` flags, `std::cout`, `std::cerr` and the
  sequence of calls made to the caller-supplied implementations are fields of an
  explicit state (`Process`), threaded through every operation.  The flags belong
  to one instantiation of the template; a `Process` describes one instantiation.
* A caller-supplied implementation is a function from the argument tuple to an
  `Outcome`: it returns, or it throws an object that is or is not derived from
  `std::exception`.  The pack `args` is taken by value and forwarded to each
  call; for the pointer and scalar arguments of the dispatching call sites a
  forwarded argument is a copy, so the tuple is an immutable value here.
* The catalog is a parameter of the dispatcher; `compiled_options` gives the
  catalogs the preprocessor can assemble.
* `GetThisThreadID()` is the parameter `tid`.
* Stream extraction follows C++11: a failed numeric extraction stores `0`, an
  out-of-range one stores the nearest bound of `int`, and an extraction that
  finds the stream at its end stores nothing.  The uninitialised local of
  `from_string<int>` is the parameter `ret`, one value per dispatcher call.
-/

namespace Tomopy

/-! ## Data model -/

/-- One catalog entry, `struct GpuOption`. -/
structure GpuOption where
  index : Int
  key : String
  description : String
  deriving DecidableEq, Repr

/-- The catalog assembled at the top of `run_gpu_algorithm`: one `push_back` per
defined preprocessor symbol `TOMOPY_USE_CUDA`, `TOMOPY_USE_OPENACC`,
`TOMOPY_USE_OPENMP`, in this order. -/
def compiled_options (use_cuda use_openacc use_openmp : Bool) : List GpuOption :=
  (if use_cuda then [⟨1, "cuda", "Run with CUDA"⟩] else []) ++
  (if use_openacc then [⟨2, "openacc", "Run with OpenACC"⟩] else []) ++
  (if use_openmp then [⟨3, "openmp", "Run with OpenMP"⟩] else [])

/-! ## `tolower` and `from_string<int>` -/

/-- The function `tolower(std::string)`: every character is replaced by its C
`tolower`, which maps `A`..`Z` to `a`..`z` and leaves the rest alone. -/
def tolower (val : String) : String :=
  ⟨val.data.map Char.toLower⟩

/-- Largest value of `int`. -/
def INT_MAX : Int := 2147483647

/-- Smallest value of `int`. -/
def INT_MIN : Int := -2147483648

/-- White space of the classic locale, skipped by the stream before a formatted
extraction: space, `\t`, `\n`, `\v`, `\f`, `\r`. -/
def isspace (c : Char) : Bool :=
  c.toNat == 32 || (9 ≤ c.toNat && c.toNat ≤ 13)

/-- Value of a run of decimal digits, most significant first. -/
def digits_value (ds : List Char) : Nat :=
  ds.foldl (fun acc c => 10 * acc + (c.toNat - 48)) 0

/-- Result stored by the extraction when the digits denote `v`: values outside
the range of `int` are replaced by the nearest bound. -/
def clamp_int (v : Int) : Int :=
  if v > INT_MAX then INT_MAX else if v < INT_MIN then INT_MIN else v

/-- The numeric extraction `ss >> ret` once the stream stands at a non-space
character: an optional sign, then the longest run of decimal digits.  With no
digit the extraction fails and stores `0`; what follows the digits stays in the
stream and is never looked at. -/
def extract_int (cs : List Char) : Int :=
  match cs with
  | '-' :: rest =>
    let ds := rest.takeWhile Char.isDigit
    if ds.isEmpty then 0 else clamp_int (-(digits_value ds : Int))
  | '+' :: rest =>
    let ds := rest.takeWhile Char.isDigit
    if ds.isEmpty then 0 else clamp_int (digits_value ds : Int)
  | _ =>
    let ds := cs.takeWhile Char.isDigit
    if ds.isEmpty then 0 else clamp_int (digits_value ds : Int)

/-- The function `from_string<int>`: `ss << val; ss >> ret; return ret;`.  The
local `ret` is declared without an initialiser; `ret` below is the value it
happens to hold.  When `val` is empty or all white space the stream reaches its
end before the extraction starts, nothing is stored, and that value is
returned. -/
def from_string (ret : Int) (val : String) : Int :=
  match val.data.dropWhile isspace with
  | [] => ret
  | c :: cs => extract_int (c :: cs)

/-! ## Process state and effects -/

/-- The four implementations handed to `run_gpu_algorithm`. -/
inductive Backend where
  | cpu
  | cuda
  | acc
  | omp
  deriving DecidableEq, Repr

/-- An object thrown by an implementation: derived from `std::exception` (with
its `what()` text) or of any other type. -/
inductive Thrown where
  | std_exception (what : String)
  | other (id : Nat)
  deriving DecidableEq, Repr

/-- How a call ends: normal return, or an exception leaving it. -/
inductive Outcome where
  | returned
  | threw (e : Thrown)
  deriving DecidableEq, Repr

/-- What `run_gpu_algorithm` writes to `std::cout`. -/
inductive CoutItem where
  | options_banner (options : List GpuOption)
  | selection_banner (selected_opt : GpuOption)
  deriving DecidableEq, Repr

/-- What the `catch` block of `run_gpu_algorithm` writes to `std::cerr`. -/
inductive CerrItem where
  | what (tid : Nat) (msg : String)
  | falling_back (tid : Nat)
  deriving DecidableEq, Repr

/-- Process-wide state seen by the dispatcher: the two `static bool first`
flags, the two output streams, and the calls made so far to the
implementations (with their arguments), oldest first. -/
structure Process (α : Type) where
  print_options_first : Bool
  print_selection_first : Bool
  cout : List CoutItem
  cerr : List CerrItem
  calls : List (Backend × α)
  deriving DecidableEq, Repr

/-- State of a fresh process: both flags still `true`, nothing written, nothing
called. -/
def Process.initial (α : Type) : Process α :=
  ⟨true, true, [], [], []⟩

/-- The lambda `print_options`: returns at once unless its flag is still set;
otherwise clears the flag and writes header, one line per option, footer. -/
def print_options {α : Type} (options : List GpuOption) (p : Process α) : Process α :=
  if !p.print_options_first then p
  else { p with print_options_first := false,
                cout := p.cout ++ [CoutItem.options_banner options] }

/-- The lambda `print_selection`, with a flag of its own. -/
def print_selection {α : Type} (selected_opt : GpuOption) (p : Process α) : Process α :=
  if !p.print_selection_first then p
  else { p with print_selection_first := false,
                cout := p.cout ++ [CoutItem.selection_banner selected_opt] }

/-- Modelled from the spec: `GetEnv` of PTL/Utility.hh is not under src/.  It
returns the configured value of the variable, or the given default when the
variable is not set; `env` is the configured value of `TOMOPY_GPU_TYPE`. -/
def GetEnv (env : Option String) (default_key : String) : String :=
  env.getD default_key

/-- Condition of the `if` inside the selection loop:
`key == tolower(itr.key) || from_string<int>(key) == itr.index`. -/
def option_matches (ret : Int) (key : String) (itr : GpuOption) : Bool :=
  key == tolower itr.key || from_string ret key == itr.index

/-- The loop `for(auto itr : options)`: every option that satisfies the condition
overwrites `selection` and calls `print_selection`; the loop has no `break`.
The state is the pair of the local `selection` and the process state. -/
def selection_loop {α : Type} (ret : Int) (key : String) :
    List GpuOption → Int × Process α → Int × Process α
  | [], s => s
  | itr :: rest, (selection, p) =>
    if option_matches ret key itr then
      selection_loop ret key rest (itr.index, print_selection itr p)
    else
      selection_loop ret key rest (selection, p)

/-- Calling one implementation: its outcome, and the call appended to the
record of calls. -/
def invoke {α : Type} (b : Backend) (f : α → Outcome) (args : α) (p : Process α) :
    Outcome × Process α :=
  (f args, { p with calls := p.calls ++ [(b, args)] })

/-- Body of the `try` block: `selection` 1, 2, 3 calls `cuda_func`, `acc_func`,
`omp_func`; any other value calls nothing. -/
def try_block {α : Type} (selection : Int) (cuda_func acc_func omp_func : α → Outcome)
    (args : α) (p : Process α) : Outcome × Process α :=
  if selection = 1 then invoke Backend.cuda cuda_func args p
  else if selection = 2 then invoke Backend.acc acc_func args p
  else if selection = 3 then invoke Backend.omp omp_func args p
  else (Outcome.returned, p)

/-- The function `run_gpu_algorithm`.  `options` is the catalog, `env` the
configured value of `TOMOPY_GPU_TYPE`, `ret` the indeterminate initial value
of the local of `from_string<int>`, `tid` the calling thread.  The handler
`catch(std::exception& e)` takes only objects derived from `std::exception`:
it writes two lines to `std::cerr` and calls `cpu_func`; any other outcome of
the `try` block is the outcome of the call. -/
def run_gpu_algorithm {α : Type} (options : List GpuOption) (env : Option String)
    (ret : Int) (tid : Nat) (cpu_func cuda_func acc_func omp_func : α → Outcome)
    (args : α) (p : Process α) : Outcome × Process α :=
  match options with
  | [] => invoke Backend.cpu cpu_func args p
  | front :: _ =>
    let p1 := print_options options p
    let default_idx := front.index
    let default_key := front.key
    let key := GetEnv env default_key
    let s := selection_loop ret key options (default_idx, p1)
    let r := try_block s.1 cuda_func acc_func omp_func args s.2
    match r.1 with
    | Outcome.threw (Thrown.std_exception msg) =>
      invoke Backend.cpu cpu_func args
        { r.2 with cerr := r.2.cerr ++ [CerrItem.what tid msg, CerrItem.falling_back tid] }
    | out => (out, r.2)

/-- Value of the local `selection` when the loop of a call on the non-empty
catalog `front :: rest` ends, the catalog banner having been handled first. -/
def selected_index {α : Type} (front : GpuOption) (rest : List GpuOption) (env : Option String)
    (ret : Int) (p : Process α) : Int :=
  (selection_loop ret (GetEnv env front.key) (front :: rest)
    (front.index, print_options (front :: rest) p)).1

/-- The implementation the `try` block calls for a value of `selection`: 1, 2
and 3 stand for `cuda_func`, `acc_func` and `omp_func`; for any other value the
block calls nothing. -/
def backend_of_selection (selection : Int) : Option Backend :=
  if selection = 1 then some Backend.cuda
  else if selection = 2 then some Backend.acc
  else if selection = 3 then some Backend.omp
  else none

/-- The non-CPU implementation a call selects: the one the `try` block calls for
the value of `selection` the loop leaves; none on the empty catalog, where the
function returns before the loop. -/
def selected_backend {α : Type} (options : List GpuOption) (env : Option String) (ret : Int)
    (p : Process α) : Option Backend :=
  match options with
  | [] => none
  | front :: rest => backend_of_selection (selected_index front rest env ret p)

/-- Implementation that `run_gpu_algorithm` associates with a backend. -/
def impl_of {α : Type} (cpu_func cuda_func acc_func omp_func : α → Outcome) :
    Backend → α → Outcome
  | Backend.cpu => cpu_func
  | Backend.cuda => cuda_func
  | Backend.acc => acc_func
  | Backend.omp => omp_func

/-! ## Sequences of dispatcher calls -/

/-- Everything one call of `run_gpu_algorithm` receives besides the catalog and
the process state. -/
structure Call (α : Type) where
  env : Option String
  ret : Int
  tid : Nat
  cpu_func : α → Outcome
  cuda_func : α → Outcome
  acc_func : α → Outcome
  omp_func : α → Outcome
  args : α

/-- One call of `run_gpu_algorithm`. -/
def run_call {α : Type} (options : List GpuOption) (c : Call α) (p : Process α) :
    Outcome × Process α :=
  run_gpu_algorithm options c.env c.ret c.tid c.cpu_func c.cuda_func c.acc_func c.omp_func
    c.args p

/-- Calls made one after the other in the same process; the process state
carries over whatever the outcome of a call. -/
def run_calls {α : Type} (options : List GpuOption) : List (Call α) → Process α → Process α
  | [], p => p
  | c :: cs, p => run_calls options cs (run_call options c p).2

/-- Recogniser of the catalog banner. -/
def CoutItem.is_options_banner : CoutItem → Bool
  | CoutItem.options_banner _ => true
  | CoutItem.selection_banner _ => false

/-- Recogniser of the selected-option banner. -/
def CoutItem.is_selection_banner : CoutItem → Bool
  | CoutItem.options_banner _ => false
  | CoutItem.selection_banner _ => true

/-- Whether the key resolved for a call satisfies the loop condition for some
option of the (non-empty) catalog. -/
def call_matches {α : Type} (options : List GpuOption) (c : Call α) : Bool :=
  match options with
  | [] => false
  | front :: _ => options.any (option_matches c.ret (GetEnv c.env front.key))

/-! ## Vocabulary of the specification -/

/-- An optionally signed decimal numeral: an optional `+` or `-`, then one or
more decimal digits, and nothing else. -/
def is_decimal_numeral (s : String) : Bool :=
  match s.data with
  | '-' :: ds => !ds.isEmpty && ds.all Char.isDigit
  | '+' :: ds => !ds.isEmpty && ds.all Char.isDigit
  | ds => !ds.isEmpty && ds.all Char.isDigit

/-- Integer denoted by an optional sign and a run of decimal digits standing at
the start of a key: 0 for an empty run, otherwise the signed value of the
digits, brought into the range of `int`. -/
def head_value (sign ds : List Char) : Int :=
  if ds.isEmpty then 0
  else clamp_int (if sign = ['-'] then -(digits_value ds : Int) else (digits_value ds : Int))

/-! ## Run managers -/

/-- Modelled from the spec: `ThreadData` of PTL/ThreadData.hh is not under src/.
The per-thread record with its owning pool and the two flags. -/
structure ThreadData where
  thread_pool : Nat
  is_master : Bool
  within_task : Bool
  deriving DecidableEq, Repr

/-- Modelled from the spec: class `TaskRunManager` of PTL/TaskRunManager.hh is
not under src/.  A state with an initialized bit that `Initialize` sets and
nothing clears; `initialize_args` records the thread count of every
`Initialize` call, oldest first; `thread_pool` names the pool reached through
`GetTaskManager()->thread_pool()`. -/
structure TaskRunManager where
  is_initialized : Bool
  initialize_args : List Nat
  thread_pool : Nat
  deriving DecidableEq, Repr

/-- Modelled from the spec: `TaskRunManager::IsInitialized`, not under src/;
reads the bit. -/
def TaskRunManager.IsInitialized (m : TaskRunManager) : Bool :=
  m.is_initialized

/-- Modelled from the spec: `TaskRunManager::Initialize`, not under src/; sets
the bit and is recorded with its thread count. -/
def TaskRunManager.Initialize (m : TaskRunManager) (nthreads : Nat) : TaskRunManager :=
  { m with is_initialized := true, initialize_args := m.initialize_args ++ [nthreads] }

/-- What `init_run_manager` writes to `std::cout`: the banner
"Initializing tasking run manager with N threads..." and, when
`TASKING_VERBOSE` is positive, the line naming the run manager and its pool. -/
inductive InitCoutItem where
  | initializing (tid : Nat) (nthreads : Nat)
  | verbose_line (thread_pool : Nat)
  deriving DecidableEq, Repr

/-- State seen by `init_run_manager`: the run manager behind the reference
`run_man`, `std::cout`, and the thread-local `ThreadData::GetInstance()` of
every thread. -/
structure Runtime where
  run_man : TaskRunManager
  cout : List InitCoutItem
  thread_data : Nat → Option ThreadData

/-- A run manager just constructed, nothing written, no thread data yet. -/
def Runtime.fresh (thread_pool : Nat) : Runtime :=
  ⟨⟨false, [], thread_pool⟩, [], fun _ => none⟩

/-- The function `init_thread_data` run by thread `tid`: creates the thread-local
record when it is null, then clears both flags. -/
def init_thread_data (tid : Nat) (tp : Nat) (thread_data : Nat → Option ThreadData) :
    Nat → Option ThreadData :=
  let d : ThreadData :=
    match thread_data tid with
    | none => ⟨tp, false, false⟩
    | some d => d
  Function.update thread_data tid (some { d with is_master := false, within_task := false })

/-- The function `init_run_manager` run by thread `tid`; `tasking_verbose` is
the value of `GetEnv<int>("TASKING_VERBOSE", 0)`. -/
def init_run_manager (tid : Nat) (tasking_verbose : Int) (nthreads : Nat) (s : Runtime) :
    Runtime :=
  let s1 : Runtime :=
    if !s.run_man.IsInitialized then
      { s with cout := s.cout ++ [InitCoutItem.initializing tid nthreads],
               run_man := s.run_man.Initialize nthreads }
    else s
  let tp := s1.run_man.thread_pool
  let s2 : Runtime := { s1 with thread_data := init_thread_data tid tp s1.thread_data }
  if tasking_verbose > 0 then
    { s2 with cout := s2.cout ++ [InitCoutItem.verbose_line tp] }
  else s2

/-- Arguments of one `init_run_manager` call on a given manager. -/
structure InitCall where
  tid : Nat
  tasking_verbose : Int
  nthreads : Nat
  deriving DecidableEq, Repr

/-- Calls of `init_run_manager` on the same manager, one after the other. -/
def init_run_manager_calls : List InitCall → Runtime → Runtime
  | [], s => s
  | c :: cs, s => init_run_manager_calls cs (init_run_manager c.tid c.tasking_verbose c.nthreads s)

/-- The initialization banners among the lines written, as (thread, thread
count) pairs, oldest first. -/
def init_banners : List InitCoutItem → List (Nat × Nat)
  | [] => []
  | InitCoutItem.initializing tid n :: rest => (tid, n) :: init_banners rest
  | InitCoutItem.verbose_line _ :: rest => init_banners rest

/-- The calls recorded in `q` that were not yet recorded in `p`: for `q` the
state after a dispatcher call started in `p`, the calls made during it. -/
def calls_made {α : Type} (p q : Process α) : List (Backend × α) :=
  q.calls.drop p.calls.length

/-- What the flags and `std::cout` look like once at least one call on the
catalog `options` has run in a fresh process: the catalog banner has been
written and its flag cleared; the selected-option banner follows it, with its
flag cleared, exactly when `matched` holds. -/
def banners_settled {α : Type} (options : List GpuOption) (matched : Bool) (q : Process α) :
    Prop :=
  q.print_options_first = false ∧
    ((matched = false ∧ q.print_selection_first = true ∧
        q.cout = [CoutItem.options_banner options]) ∨
      (matched = true ∧ q.print_selection_first = false ∧
        ∃ o, q.cout = [CoutItem.options_banner options, CoutItem.selection_banner o]))

/-! ## The selection loop -/

theorem print_selection_calls {α : Type} (o : GpuOption) (p : Process α) :
    (print_selection o p).calls = p.calls ∧ (print_selection o p).cerr = p.cerr ∧
      (print_selection o p).print_options_first = p.print_options_first := by
  unfold print_selection
  split <;> simp

theorem print_options_calls {α : Type} (options : List GpuOption) (p : Process α) :
    (print_options options p).calls = p.calls ∧ (print_options options p).cerr = p.cerr := by
  unfold print_options
  split <;> simp

theorem selection_loop_append {α : Type} (ret : Int) (key : String) (l1 l2 : List GpuOption)
    (s : Int × Process α) :
    selection_loop ret key (l1 ++ l2) s = selection_loop ret key l2 (selection_loop ret key l1 s) := by
  induction l1 generalizing s with
  | nil => rfl
  | cons itr l1 ih =>
    obtain ⟨selection, p⟩ := s
    simp only [List.cons_append, selection_loop]
    split <;> exact ih _

theorem selection_loop_no_match {α : Type} (ret : Int) (key : String) (l : List GpuOption)
    (s : Int × Process α) (h : ∀ q ∈ l, option_matches ret key q = false) :
    selection_loop ret key l s = s := by
  induction l generalizing s with
  | nil => rfl
  | cons itr l ih =>
    obtain ⟨selection, p⟩ := s
    have h1 : option_matches ret key itr = false := h itr (List.mem_cons_self _ _)
    simp only [selection_loop, h1, Bool.false_eq_true, if_false]
    exact ih _ (fun q hq => h q (List.mem_cons_of_mem _ hq))

theorem selection_loop_fst_last {α : Type} (ret : Int) (key : String)
    (pre post : List GpuOption) (o : GpuOption) (s : Int × Process α)
    (ho : option_matches ret key o = true)
    (hpost : ∀ q ∈ post, option_matches ret key q = false) :
    (selection_loop ret key (pre ++ o :: post) s).1 = o.index := by
  rw [selection_loop_append]
  generalize selection_loop ret key pre s = s1
  obtain ⟨selection, p⟩ := s1
  simp only [selection_loop, ho, if_true]
  rw [selection_loop_no_match ret key post _ hpost]

theorem selection_loop_calls {α : Type} (ret : Int) (key : String) (l : List GpuOption)
    (s : Int × Process α) :
    (selection_loop ret key l s).2.calls = s.2.calls ∧
      (selection_loop ret key l s).2.cerr = s.2.cerr ∧
      (selection_loop ret key l s).2.print_options_first = s.2.print_options_first := by
  induction l generalizing s with
  | nil => exact ⟨rfl, rfl, rfl⟩
  | cons itr l ih =>
    obtain ⟨selection, p⟩ := s
    simp only [selection_loop]
    split
    · have h1 := ih (itr.index, print_selection itr p)
      have h2 := print_selection_calls itr p
      simp only at h1
      exact ⟨h1.1.trans h2.1, h1.2.1.trans h2.2.1, h1.2.2.trans h2.2.2⟩
    · exact ih _

/-! ## The dispatcher -/

theorem backend_of_selection_ne_cpu (selection : Int) (b : Backend)
    (h : backend_of_selection selection = some b) : b ≠ Backend.cpu := by
  unfold backend_of_selection at h
  split_ifs at h <;> simp only [Option.some.injEq, reduceCtorEq] at h <;> subst h <;> decide

theorem try_block_eq {α : Type} (selection : Int) (cpu_func cuda_func acc_func omp_func : α → Outcome)
    (args : α) (p : Process α) :
    try_block selection cuda_func acc_func omp_func args p =
      match backend_of_selection selection with
      | some b => invoke b (impl_of cpu_func cuda_func acc_func omp_func b) args p
      | none => (Outcome.returned, p) := by
  unfold try_block backend_of_selection
  split_ifs <;> rfl

theorem run_gpu_algorithm_cons {α : Type} (front : GpuOption) (rest : List GpuOption)
    (env : Option String) (ret : Int) (tid : Nat)
    (cpu_func cuda_func acc_func omp_func : α → Outcome) (args : α) (p : Process α) :
    ∃ p2 : Process α, p2.calls = p.calls ∧ p2.cerr = p.cerr ∧
      run_gpu_algorithm (front :: rest) env ret tid cpu_func cuda_func acc_func omp_func args p =
        (match (try_block (selected_index front rest env ret p) cuda_func acc_func omp_func
            args p2).1 with
          | Outcome.threw (Thrown.std_exception msg) =>
            invoke Backend.cpu cpu_func args
              { (try_block (selected_index front rest env ret p) cuda_func acc_func omp_func
                  args p2).2 with
                cerr := (try_block (selected_index front rest env ret p) cuda_func acc_func
                  omp_func args p2).2.cerr ++ [CerrItem.what tid msg, CerrItem.falling_back tid] }
          | out => (out, (try_block (selected_index front rest env ret p) cuda_func acc_func
              omp_func args p2).2)) := by
  refine ⟨(selection_loop ret (GetEnv env front.key) (front :: rest)
    (front.index, print_options (front :: rest) p)).2, ?_, ?_, rfl⟩
  · rw [(selection_loop_calls _ _ _ _).1]
    exact (print_options_calls _ p).1
  · rw [(selection_loop_calls _ _ _ _).2.1]
    exact (print_options_calls _ p).2

theorem run_gpu_algorithm_selected {α : Type} (front : GpuOption) (rest : List GpuOption)
    (env : Option String) (ret : Int) (tid : Nat)
    (cpu_func cuda_func acc_func omp_func : α → Outcome) (args : α) (p : Process α) (b : Backend)
    (hsel : selected_backend (front :: rest) env ret p = some b) :
    (impl_of cpu_func cuda_func acc_func omp_func b args = Outcome.returned →
        (run_gpu_algorithm (front :: rest) env ret tid cpu_func cuda_func acc_func omp_func args
          p).1 = Outcome.returned ∧
        (run_gpu_algorithm (front :: rest) env ret tid cpu_func cuda_func acc_func omp_func args
          p).2.calls = p.calls ++ [(b, args)] ∧
        (run_gpu_algorithm (front :: rest) env ret tid cpu_func cuda_func acc_func omp_func args
          p).2.cerr = p.cerr) ∧
      (∀ msg, impl_of cpu_func cuda_func acc_func omp_func b args =
          Outcome.threw (Thrown.std_exception msg) →
        (run_gpu_algorithm (front :: rest) env ret tid cpu_func cuda_func acc_func omp_func args
          p).1 = cpu_func args ∧
        (run_gpu_algorithm (front :: rest) env ret tid cpu_func cuda_func acc_func omp_func args
          p).2.calls = p.calls ++ [(b, args), (Backend.cpu, args)] ∧
        (run_gpu_algorithm (front :: rest) env ret tid cpu_func cuda_func acc_func omp_func args
          p).2.cerr = p.cerr ++ [CerrItem.what tid msg, CerrItem.falling_back tid]) ∧
      (∀ id, impl_of cpu_func cuda_func acc_func omp_func b args =
          Outcome.threw (Thrown.other id) →
        (run_gpu_algorithm (front :: rest) env ret tid cpu_func cuda_func acc_func omp_func args
          p).1 = Outcome.threw (Thrown.other id) ∧
        (run_gpu_algorithm (front :: rest) env ret tid cpu_func cuda_func acc_func omp_func args
          p).2.calls = p.calls ++ [(b, args)] ∧
        (run_gpu_algorithm (front :: rest) env ret tid cpu_func cuda_func acc_func omp_func args
          p).2.cerr = p.cerr) := by
  obtain ⟨p2, hc, he, hrun⟩ :=
    run_gpu_algorithm_cons front rest env ret tid cpu_func cuda_func acc_func omp_func args p
  have hb : backend_of_selection (selected_index front rest env ret p) = some b := hsel
  have htry := try_block_eq (selected_index front rest env ret p) cpu_func cuda_func acc_func
    omp_func args p2
  rw [hb] at htry
  simp only at htry
  rw [hrun, htry]
  refine ⟨?_, ?_, ?_⟩
  · intro h
    simp only [invoke, h, hc, he]
    exact ⟨trivial, trivial, trivial⟩
  · intro msg h
    simp only [invoke, h, hc, he, List.append_assoc, List.singleton_append]
    exact ⟨trivial, trivial, trivial⟩
  · intro id h
    simp only [invoke, h, hc, he]
    exact ⟨trivial, trivial, trivial⟩

theorem run_gpu_algorithm_unselected {α : Type} (front : GpuOption) (rest : List GpuOption)
    (env : Option String) (ret : Int) (tid : Nat)
    (cpu_func cuda_func acc_func omp_func : α → Outcome) (args : α) (p : Process α)
    (hsel : selected_backend (front :: rest) env ret p = none) :
    (run_gpu_algorithm (front :: rest) env ret tid cpu_func cuda_func acc_func omp_func args
        p).1 = Outcome.returned ∧
      (run_gpu_algorithm (front :: rest) env ret tid cpu_func cuda_func acc_func omp_func args
        p).2.calls = p.calls := by
  obtain ⟨p2, hc, -, hrun⟩ :=
    run_gpu_algorithm_cons front rest env ret tid cpu_func cuda_func acc_func omp_func args p
  have hb : backend_of_selection (selected_index front rest env ret p) = none := hsel
  have htry := try_block_eq (selected_index front rest env ret p) cpu_func cuda_func acc_func
    omp_func args p2
  rw [hb] at htry
  simp only at htry
  rw [hrun, htry]
  exact ⟨rfl, hc⟩

/-- C4: on an empty catalog `run_gpu_algorithm` calls `cpu_func` once with the
given arguments and nothing else, whatever the selection key; it writes nothing
to `std::cout` or `std::cerr`, leaves both one-shot flags as they were, and its
outcome is the outcome of `cpu_func`. -/
theorem run_gpu_algorithm_empty_catalog {α : Type} (env : Option String) (ret : Int) (tid : Nat)
    (cpu_func cuda_func acc_func omp_func : α → Outcome) (args : α) (p : Process α) :
    (run_gpu_algorithm [] env ret tid cpu_func cuda_func acc_func omp_func args p).1 =
        cpu_func args ∧
      (run_gpu_algorithm [] env ret tid cpu_func cuda_func acc_func omp_func args p).2.calls =
        p.calls ++ [(Backend.cpu, args)] ∧
      (run_gpu_algorithm [] env ret tid cpu_func cuda_func acc_func omp_func args p).2.cout =
        p.cout ∧
      (run_gpu_algorithm [] env ret tid cpu_func cuda_func acc_func omp_func args p).2.cerr =
        p.cerr ∧
      (run_gpu_algorithm [] env ret tid cpu_func cuda_func acc_func omp_func args
        p).2.print_options_first = p.print_options_first ∧
      (run_gpu_algorithm [] env ret tid cpu_func cuda_func acc_func omp_func args
        p).2.print_selection_first = p.print_selection_first :=
  ⟨rfl, rfl, rfl, rfl, rfl, rfl⟩

/-- C1 (amended): on a non-empty catalog, let `b` be the implementation the
call selects.  If it throws an object derived from `std::exception`, the call
has invoked it once, then `cpu_func` once with the same arguments, and nothing
else; the two fallback lines went to `std::cerr`; the outcome of the call is
the outcome of that `cpu_func` invocation.  If it throws an object of any other
type, the call has invoked it once and nothing else, `cpu_func` in particular
is not invoked, nothing went to `std::cerr`, and the outcome of the call is that
object thrown. -/
theorem run_gpu_algorithm_selected_throws {α : Type} (front : GpuOption)
    (rest : List GpuOption) (env : Option String) (ret : Int) (tid : Nat)
    (cpu_func cuda_func acc_func omp_func : α → Outcome) (args : α) (p : Process α)
    (b : Backend) (hsel : selected_backend (front :: rest) env ret p = some b) :
    b ≠ Backend.cpu ∧
      (∀ msg, impl_of cpu_func cuda_func acc_func omp_func b args =
          Outcome.threw (Thrown.std_exception msg) →
        (run_gpu_algorithm (front :: rest) env ret tid cpu_func cuda_func acc_func omp_func args
          p).1 = cpu_func args ∧
        (run_gpu_algorithm (front :: rest) env ret tid cpu_func cuda_func acc_func omp_func args
          p).2.calls = p.calls ++ [(b, args), (Backend.cpu, args)] ∧
        (run_gpu_algorithm (front :: rest) env ret tid cpu_func cuda_func acc_func omp_func args
          p).2.cerr = p.cerr ++ [CerrItem.what tid msg, CerrItem.falling_back tid]) ∧
      (∀ id, impl_of cpu_func cuda_func acc_func omp_func b args =
          Outcome.threw (Thrown.other id) →
        (run_gpu_algorithm (front :: rest) env ret tid cpu_func cuda_func acc_func omp_func args
          p).1 = Outcome.threw (Thrown.other id) ∧
        (run_gpu_algorithm (front :: rest) env ret tid cpu_func cuda_func acc_func omp_func args
          p).2.calls = p.calls ++ [(b, args)] ∧
        (run_gpu_algorithm (front :: rest) env ret tid cpu_func cuda_func acc_func omp_func args
          p).2.cerr = p.cerr) := by
  have h := run_gpu_algorithm_selected front rest env ret tid cpu_func cuda_func acc_func omp_func
    args p b hsel
  exact ⟨backend_of_selection_ne_cpu _ b hsel, h.2.1, h.2.2⟩

/-- C1 (as stated) fails: with the catalog of a CUDA-only build and the default
key, `cuda_func` is selected; when it throws an object that is not derived from
`std::exception`, `cpu_func` is never called and the outcome of the call is that
object, not the outcome of `cpu_func`. -/
theorem run_gpu_algorithm_no_fallback_for_non_std :
    selected_index (⟨1, "cuda", "Run with CUDA"⟩ : GpuOption) [] none 0 (Process.initial Nat) = 1 ∧
      (run_gpu_algorithm (compiled_options true false false) none 0 0
        (fun _ => Outcome.returned) (fun _ => Outcome.threw (Thrown.other 0))
        (fun _ => Outcome.returned) (fun _ => Outcome.returned) (5 : Nat)
        (Process.initial Nat)).2.calls = [(Backend.cuda, 5)] ∧
      (run_gpu_algorithm (compiled_options true false false) none 0 0
        (fun _ => Outcome.returned) (fun _ => Outcome.threw (Thrown.other 0))
        (fun _ => Outcome.returned) (fun _ => Outcome.returned) (5 : Nat)
        (Process.initial Nat)).1 = Outcome.threw (Thrown.other 0) := by
  decide

/-- Instance of the theorem for C1: CUDA and OpenACC compiled in, key "cuda",
`cuda_func` throwing a `std::exception` with text "device unavailable"; the
call returns as `cpu_func` does, after one call of each. -/
theorem run_gpu_algorithm_selected_throws_witness :
    selected_backend (compiled_options true true false) (some "cuda") 0 (Process.initial Nat) =
        some Backend.cuda ∧
      (run_gpu_algorithm (compiled_options true true false) (some "cuda") 0 7
        (fun _ => Outcome.returned)
        (fun _ => Outcome.threw (Thrown.std_exception "device unavailable"))
        (fun _ => Outcome.returned) (fun _ => Outcome.returned) (5 : Nat)
        (Process.initial Nat)).1 = Outcome.returned ∧
      (run_gpu_algorithm (compiled_options true true false) (some "cuda") 0 7
        (fun _ => Outcome.returned)
        (fun _ => Outcome.threw (Thrown.std_exception "device unavailable"))
        (fun _ => Outcome.returned) (fun _ => Outcome.returned) (5 : Nat)
        (Process.initial Nat)).2.calls = [] ++ [(Backend.cuda, 5), (Backend.cpu, 5)] ∧
      (run_gpu_algorithm (compiled_options true true false) (some "cuda") 0 7
        (fun _ => Outcome.returned)
        (fun _ => Outcome.threw (Thrown.std_exception "device unavailable"))
        (fun _ => Outcome.returned) (fun _ => Outcome.returned) (5 : Nat)
        (Process.initial Nat)).2.cerr =
          [] ++ [CerrItem.what 7 "device unavailable", CerrItem.falling_back 7] :=
  ⟨by decide,
    (run_gpu_algorithm_selected_throws ⟨1, "cuda", "Run with CUDA"⟩
      [⟨2, "openacc", "Run with OpenACC"⟩] (some "cuda") 0 7 (fun _ => Outcome.returned)
      (fun _ => Outcome.threw (Thrown.std_exception "device unavailable"))
      (fun _ => Outcome.returned) (fun _ => Outcome.returned) (5 : Nat) (Process.initial Nat)
      Backend.cuda (by decide)).2.1 "device unavailable" rfl⟩

/-- C5 (amended): for every catalog, key and argument tuple, a call of
`run_gpu_algorithm` ends in the error `e` exactly when either `cpu_func` was
invoked during the call (on an empty catalog, or as the fallback) and threw `e`,
or the selected non-CPU implementation threw `e`, an object not derived from
`std::exception`.  In the second case that implementation is the only one
invoked, so `cpu_func` is not.  When the selected non-CPU implementation throws
an object derived from `std::exception`, the outcome of the call is the outcome
of the `cpu_func` fallback, so that object never reaches the caller. -/
theorem run_gpu_algorithm_error_iff {α : Type} (options : List GpuOption) (env : Option String)
    (ret : Int) (tid : Nat) (cpu_func cuda_func acc_func omp_func : α → Outcome) (args : α)
    (p : Process α) (e : Thrown) :
    ((run_gpu_algorithm options env ret tid cpu_func cuda_func acc_func omp_func args p).1 =
          Outcome.threw e ↔
        ((Backend.cpu, args) ∈ calls_made p
            (run_gpu_algorithm options env ret tid cpu_func cuda_func acc_func omp_func args p).2 ∧
          cpu_func args = Outcome.threw e) ∨
        (∃ b id, selected_backend options env ret p = some b ∧ e = Thrown.other id ∧
          impl_of cpu_func cuda_func acc_func omp_func b args = Outcome.threw e)) ∧
      (∀ b id, selected_backend options env ret p = some b →
        impl_of cpu_func cuda_func acc_func omp_func b args = Outcome.threw (Thrown.other id) →
        b ≠ Backend.cpu ∧
          calls_made p
            (run_gpu_algorithm options env ret tid cpu_func cuda_func acc_func omp_func args p).2 =
              [(b, args)] ∧
          (run_gpu_algorithm options env ret tid cpu_func cuda_func acc_func omp_func args p).1 =
            Outcome.threw (Thrown.other id)) ∧
      (∀ b msg, selected_backend options env ret p = some b →
        impl_of cpu_func cuda_func acc_func omp_func b args =
          Outcome.threw (Thrown.std_exception msg) →
        calls_made p
            (run_gpu_algorithm options env ret tid cpu_func cuda_func acc_func omp_func args p).2 =
              [(b, args), (Backend.cpu, args)] ∧
          (run_gpu_algorithm options env ret tid cpu_func cuda_func acc_func omp_func args p).1 =
            cpu_func args) := by
  cases options with
  | nil =>
    refine ⟨?_, ?_, ?_⟩
    · simp only [run_gpu_algorithm, invoke, calls_made, List.drop_left, List.mem_singleton,
        selected_backend, reduceCtorEq, false_and, exists_false, or_false, true_and]
    · intro b id h
      exact absurd h (by simp [selected_backend])
    · intro b msg h
      exact absurd h (by simp [selected_backend])
  | cons front rest =>
    cases hsel : selected_backend (front :: rest) env ret p with
    | none =>
      obtain ⟨h1, h2⟩ := run_gpu_algorithm_unselected front rest env ret tid cpu_func cuda_func
        acc_func omp_func args p hsel
      refine ⟨?_, ?_, ?_⟩
      · rw [h1]
        simp [calls_made, h2]
      · intro b id h
        exact absurd h (by simp)
      · intro b msg h
        exact absurd h (by simp)
    | some b0 =>
      have hne := backend_of_selection_ne_cpu _ b0 hsel
      obtain ⟨hret, hstd, hoth⟩ := run_gpu_algorithm_selected front rest env ret tid cpu_func
        cuda_func acc_func omp_func args p b0 hsel
      refine ⟨?_, ?_, ?_⟩
      · cases hout : impl_of cpu_func cuda_func acc_func omp_func b0 args with
        | returned =>
          obtain ⟨h1, h2, -⟩ := hret hout
          rw [h1]
          simp only [calls_made, h2, List.drop_left, List.mem_singleton, Prod.mk.injEq, and_true,
            Option.some.injEq, reduceCtorEq, false_iff, not_or, not_and, not_exists]
          refine ⟨fun h => absurd h.symm hne, ?_⟩
          rintro b id rfl - h
          rw [hout] at h
          exact Outcome.noConfusion h
        | threw t =>
          cases t with
          | std_exception msg =>
            obtain ⟨h1, h2, -⟩ := hstd msg hout
            rw [h1]
            simp only [calls_made, h2, List.drop_left, List.mem_cons, Prod.mk.injEq, and_true,
              List.mem_singleton, or_true, true_and, Option.some.injEq, List.not_mem_nil,
              or_false]
            constructor
            · intro h
              exact Or.inl h
            · rintro (h | ⟨b, id, rfl, rfl, h⟩)
              · exact h
              · rw [hout] at h
                exact absurd (Outcome.threw.inj h) (by simp)
          | other id0 =>
            obtain ⟨h1, h2, -⟩ := hoth id0 hout
            rw [h1]
            simp only [calls_made, h2, List.drop_left, List.mem_singleton, Prod.mk.injEq,
              and_true, Option.some.injEq, Outcome.threw.injEq]
            constructor
            · intro h
              exact Or.inr ⟨b0, id0, rfl, h.symm, by rw [hout, h]⟩
            · rintro (⟨h, -⟩ | ⟨b, id, rfl, -, h⟩)
              · exact absurd h.symm hne
              · rw [hout] at h
                exact (Outcome.threw.inj h)
      · intro b id hb hout
        rw [Option.some.injEq] at hb
        subst hb
        obtain ⟨h1, h2, -⟩ := hoth id hout
        exact ⟨hne, by simp [calls_made, h2], h1⟩
      · intro b msg hb hout
        rw [Option.some.injEq] at hb
        subst hb
        obtain ⟨h1, h2, -⟩ := hstd msg hout
        exact ⟨by simp [calls_made, h2], h1⟩

/-- C5 (as stated) fails: in an OpenACC-only build with the default key,
`acc_func` throwing an object that is not derived from `std::exception` ends the
call in that error although `cpu_func` was never invoked. -/
theorem run_gpu_algorithm_non_std_reaches_caller :
    (run_gpu_algorithm (compiled_options false true false) none 0 0
        (fun _ => Outcome.returned) (fun _ => Outcome.returned)
        (fun _ => Outcome.threw (Thrown.other 7)) (fun _ => Outcome.returned) (3 : Nat)
        (Process.initial Nat)).1 = Outcome.threw (Thrown.other 7) ∧
      (run_gpu_algorithm (compiled_options false true false) none 0 0
        (fun _ => Outcome.returned) (fun _ => Outcome.returned)
        (fun _ => Outcome.threw (Thrown.other 7)) (fun _ => Outcome.returned) (3 : Nat)
        (Process.initial Nat)).2.calls = [(Backend.acc, 3)] := by
  decide

/-! ## Which option the loop selects -/

theorem option_matches_eq_false {ret : Int} {key : String} {o : GpuOption}
    (hkey : key ≠ tolower o.key) (hidx : from_string ret key ≠ o.index) :
    option_matches ret key o = false := by
  simp [option_matches, hkey, hidx]

/-- C2, evaluated on the code: a key that differs from an option key by letter
case does not select that option, because the loop lower-cases `itr.key` and
compares it with the key as given.  With CUDA and OpenACC compiled in, the key
"OPENACC" leaves the default index 1; so does "BETA" on the catalog
[(1, "alpha"), (2, "beta")]; and the call then runs `cuda_func`, not
`acc_func`. -/
theorem selected_index_uppercase_key (ret : Int) (p : Process Nat) :
    selected_index ⟨1, "cuda", "Run with CUDA"⟩ [⟨2, "openacc", "Run with OpenACC"⟩]
        (some "OPENACC") ret p = 1 ∧
      selected_index ⟨1, "alpha", ""⟩ [⟨2, "beta", ""⟩] (some "BETA") ret p = 1 ∧
      (run_gpu_algorithm (compiled_options true true false) (some "OPENACC") ret 0
        (fun _ => Outcome.returned) (fun _ => Outcome.returned) (fun _ => Outcome.returned)
        (fun _ => Outcome.returned) (0 : Nat) (Process.initial Nat)).2.calls =
          [(Backend.cuda, 0)] :=
  ⟨rfl, rfl, rfl⟩

/-- C6 (as stated) fails: with CUDA and OpenACC compiled in, the keys "2abc",
"2.5" and " 2" equal no option key and are not decimal numerals, yet
`from_string<int>` extracts 2 from each and the loop selects index 2, not the
default index 1. -/
theorem selected_index_leading_digits_key :
    ((compiled_options true true false).all
        (fun o => ["2abc", "2.5", " 2"].all (fun key => key != tolower o.key)) = true) ∧
      (["2abc", "2.5", " 2"].all (fun key => !is_decimal_numeral key) = true) ∧
      (compiled_options true true false).head? = some ⟨1, "cuda", "Run with CUDA"⟩ ∧
      selected_index ⟨1, "cuda", "Run with CUDA"⟩ [⟨2, "openacc", "Run with OpenACC"⟩]
        (some "2abc") 0 (Process.initial Nat) = 2 ∧
      selected_index ⟨1, "cuda", "Run with CUDA"⟩ [⟨2, "openacc", "Run with OpenACC"⟩]
        (some "2.5") 0 (Process.initial Nat) = 2 ∧
      selected_index ⟨1, "cuda", "Run with CUDA"⟩ [⟨2, "openacc", "Run with OpenACC"⟩]
        (some " 2") 0 (Process.initial Nat) = 2 := by
  decide

/-- C10 (amended): the last match wins.  On a non-empty catalog, an option
that satisfies the loop condition (its lower-cased key equals the key, or its
index equals the integer `from_string<int>` extracts from the key) is the one
selected exactly when no option after it in catalog order satisfies the
condition; so an option whose key equals the key is overridden by a later
option whose index equals the key's integer value. -/
theorem selected_index_last_match {α : Type} (front : GpuOption) (rest : List GpuOption)
    (key : String) (ret : Int) (p : Process α) (pre post : List GpuOption) (o : GpuOption)
    (hsplit : front :: rest = pre ++ o :: post)
    (ho : key = tolower o.key ∨ from_string ret key = o.index)
    (hpost : ∀ q ∈ post, key ≠ tolower q.key ∧ from_string ret key ≠ q.index) :
    selected_index front rest (some key) ret p = o.index := by
  unfold selected_index
  rw [hsplit]
  apply selection_loop_fst_last
  · rcases ho with h | h <;> simp [option_matches, GetEnv, h]
  · intro q hq
    exact option_matches_eq_false (hpost q hq).1 (hpost q hq).2

/-- Instance of the last-match theorem for C10: on the catalog
[(1, "alpha"), (2, "beta"), (3, "gamma")] with key "2" only the second option
satisfies the condition (by index), nothing after it does, and it is selected. -/
theorem selected_index_last_match_witness :
    ((⟨1, "alpha", ""⟩ : GpuOption) :: [⟨2, "beta", ""⟩, ⟨3, "gamma", ""⟩] =
        [⟨1, "alpha", ""⟩] ++ ⟨2, "beta", ""⟩ :: [⟨3, "gamma", ""⟩]) ∧
      from_string 0 "2" = (⟨2, "beta", ""⟩ : GpuOption).index ∧
      (∀ q ∈ [(⟨3, "gamma", ""⟩ : GpuOption)],
        ("2" : String) ≠ tolower q.key ∧ from_string 0 "2" ≠ q.index) ∧
      selected_index ⟨1, "alpha", ""⟩ [⟨2, "beta", ""⟩, ⟨3, "gamma", ""⟩] (some "2") 0
        (Process.initial Nat) = (⟨2, "beta", ""⟩ : GpuOption).index :=
  ⟨rfl, by decide, by decide,
    selected_index_last_match ⟨1, "alpha", ""⟩ [⟨2, "beta", ""⟩, ⟨3, "gamma", ""⟩] "2" 0
      (Process.initial Nat) [⟨1, "alpha", ""⟩] [⟨3, "gamma", ""⟩] ⟨2, "beta", ""⟩ rfl
      (Or.inr (by decide)) (by decide)⟩

/-- C10 (as stated) fails: the catalog [(1, "2"), (2, "b")] has distinct indices
and distinct lower-case keys, the key "2" equals the key of the first option,
and the loop selects index 2. -/
theorem selected_index_key_match_overridden :
    ("2" : String) = tolower (⟨1, "2", ""⟩ : GpuOption).key ∧
      ([(⟨1, "2", ""⟩ : GpuOption), ⟨2, "b", ""⟩].map GpuOption.index).Nodup ∧
      ([(⟨1, "2", ""⟩ : GpuOption), ⟨2, "b", ""⟩].map GpuOption.key).Nodup ∧
      ([(⟨1, "2", ""⟩ : GpuOption), ⟨2, "b", ""⟩].all (fun o => tolower o.key == o.key) = true) ∧
      selected_index ⟨1, "2", ""⟩ [⟨2, "b", ""⟩] (some "2") 0 (Process.initial Nat) = 2 := by
  decide

/-! ## Keys that are decimal numerals -/

theorem digitChar_isDigit (m : Nat) (h : m < 10) :
    (Nat.digitChar m).isDigit = true ∧ (Nat.digitChar m).toNat - 48 = m := by
  interval_cases m <;> exact ⟨rfl, rfl⟩

theorem digits_value_append (pre : List Char) (d : Char) :
    digits_value (pre ++ [d]) = 10 * digits_value pre + (d.toNat - 48) := by
  simp [digits_value, List.foldl_append]

theorem toDigitsCore_spec (fuel : Nat) :
    ∀ (n : Nat) (ds : List Char), n < fuel →
      ∃ pre, Nat.toDigitsCore 10 fuel n ds = pre ++ ds ∧ pre ≠ [] ∧
        (∀ c ∈ pre, Char.isDigit c = true) ∧ digits_value pre = n := by
  induction fuel with
  | zero => intro n ds h; omega
  | succ k ih =>
    intro n ds h
    simp only [Nat.toDigitsCore]
    have hd := digitChar_isDigit (n % 10) (Nat.mod_lt _ (by decide))
    split
    · rename_i h0
      refine ⟨[Nat.digitChar (n % 10)], rfl, by simp, ?_, ?_⟩
      · intro c hc
        rw [List.mem_singleton] at hc
        rw [hc]
        exact hd.1
      · have : digits_value [Nat.digitChar (n % 10)] = (Nat.digitChar (n % 10)).toNat - 48 := by
          simp [digits_value]
        rw [this, hd.2]
        omega
    · rename_i h0
      obtain ⟨pre, hpre, -, hdig, hval⟩ := ih (n / 10) (Nat.digitChar (n % 10) :: ds) (by omega)
      refine ⟨pre ++ [Nat.digitChar (n % 10)], ?_, by simp, ?_, ?_⟩
      · rw [hpre]
        simp
      · intro c hc
        rcases List.mem_append.1 hc with hc | hc
        · exact hdig c hc
        · rw [List.mem_singleton] at hc
          rw [hc]
          exact hd.1
      · rw [digits_value_append, hval, hd.2]
        omega

theorem toDigits_spec (n : Nat) :
    Nat.toDigits 10 n ≠ [] ∧ (∀ c ∈ Nat.toDigits 10 n, Char.isDigit c = true) ∧
      digits_value (Nat.toDigits 10 n) = n := by
  obtain ⟨pre, hpre, hne, hdig, hval⟩ := toDigitsCore_spec (n + 1) n [] (Nat.lt_succ_self n)
  rw [List.append_nil] at hpre
  unfold Nat.toDigits
  rw [hpre]
  exact ⟨hne, hdig, hval⟩

theorem isDigit_facts (c : Char) (h : Char.isDigit c = true) :
    isspace c = false ∧ c ≠ '-' ∧ c ≠ '+' := by
  refine ⟨?_, ?_, ?_⟩
  · simp only [Char.isDigit, Bool.and_eq_true, decide_eq_true_eq, ge_iff_le, UInt32.le_def,
      Fin.le_def] at h
    have h1 : 48 ≤ c.toNat := h.1
    have h2 : c.toNat ≤ 57 := h.2
    simp only [isspace, Bool.or_eq_false_iff, beq_eq_false_iff_ne, ne_eq, Bool.and_eq_false_iff,
      decide_eq_false_iff_not, not_le]
    omega
  · rintro rfl
    exact absurd h (by decide)
  · rintro rfl
    exact absurd h (by decide)

theorem takeWhile_all_digits (l : List Char) (hd : ∀ c ∈ l, Char.isDigit c = true) :
    l.takeWhile Char.isDigit = l :=
  List.takeWhile_eq_self_iff.2 hd

theorem extract_int_digits (l : List Char) (hne : l ≠ [])
    (hd : ∀ c ∈ l, Char.isDigit c = true) :
    extract_int l = clamp_int (digits_value l : Int) := by
  cases l with
  | nil => exact absurd rfl hne
  | cons c cs =>
    have hc := isDigit_facts c (hd c (List.mem_cons_self _ _))
    unfold extract_int
    split
    · rename_i heq
      exact absurd (List.cons.inj heq).1 hc.2.1
    · rename_i heq
      exact absurd (List.cons.inj heq).1 hc.2.2
    · simp only [takeWhile_all_digits _ hd, List.isEmpty_cons, Bool.false_eq_true, if_false]

theorem extract_int_minus_digits (l : List Char) (hne : l ≠ [])
    (hd : ∀ c ∈ l, Char.isDigit c = true) :
    extract_int ('-' :: l) = clamp_int (-(digits_value l : Int)) := by
  cases l with
  | nil => exact absurd rfl hne
  | cons c cs =>
    simp only [extract_int, takeWhile_all_digits _ hd, List.isEmpty_cons, Bool.false_eq_true,
      if_false]

theorem clamp_int_of_range (v : Int) (h1 : INT_MIN ≤ v) (h2 : v ≤ INT_MAX) : clamp_int v = v := by
  unfold clamp_int
  rw [if_neg (not_lt.2 h2), if_neg (not_lt.2 h1)]

theorem from_string_repr (ret : Int) (n : Int) (h1 : INT_MIN ≤ n) (h2 : n ≤ INT_MAX) :
    from_string ret (Int.repr n) = n := by
  cases n with
  | ofNat m =>
    obtain ⟨hne, hdig, hval⟩ := toDigits_spec m
    have hdata : (Int.repr (Int.ofNat m)).data = Nat.toDigits 10 m := rfl
    unfold from_string
    rw [hdata]
    cases hl : Nat.toDigits 10 m with
    | nil => exact absurd hl hne
    | cons c cs =>
      rw [hl] at hdig hval
      have hc := isDigit_facts c (hdig c (List.mem_cons_self _ _))
      rw [List.dropWhile_cons_of_neg (by simp [hc.1])]
      simp only
      rw [extract_int_digits _ (by simp) hdig, hval]
      exact clamp_int_of_range _ h1 h2
  | negSucc m =>
    obtain ⟨hne, hdig, hval⟩ := toDigits_spec (m + 1)
    have hdata : (Int.repr (Int.negSucc m)).data = '-' :: Nat.toDigits 10 (m + 1) := rfl
    unfold from_string
    rw [hdata, List.dropWhile_cons_of_neg (by decide)]
    simp only
    rw [extract_int_minus_digits _ hne hdig, hval]
    exact clamp_int_of_range _ h1 h2

theorem toLower_eq_self (c : Char)
    (h : Char.isDigit (Char.toLower c) = true ∨ Char.toLower c = '-') : Char.toLower c = c := by
  unfold Char.toLower at h ⊢
  simp only at h ⊢
  split_ifs at h ⊢ with hu
  · exfalso
    generalize c.toNat = k at hu h
    obtain ⟨h65, h90⟩ := hu
    interval_cases k <;> revert h <;> decide
  · rfl

theorem repr_chars (n : Int) :
    ∀ c ∈ (Int.repr n).data, Char.isDigit c = true ∨ c = '-' := by
  cases n with
  | ofNat m =>
    intro c hc
    exact Or.inl ((toDigits_spec m).2.1 c hc)
  | negSucc m =>
    intro c hc
    have hdata : (Int.repr (Int.negSucc m)).data = '-' :: Nat.toDigits 10 (m + 1) := rfl
    rw [hdata] at hc
    rcases List.mem_cons.1 hc with hc | hc
    · exact Or.inr hc
    · exact Or.inl ((toDigits_spec (m + 1)).2.1 c hc)

theorem is_decimal_numeral_repr (n : Int) : is_decimal_numeral (Int.repr n) = true := by
  cases n with
  | ofNat m =>
    obtain ⟨hne, hdig, -⟩ := toDigits_spec m
    have hdata : (Int.repr (Int.ofNat m)).data = Nat.toDigits 10 m := rfl
    unfold is_decimal_numeral
    rw [hdata]
    cases hl : Nat.toDigits 10 m with
    | nil => exact absurd hl hne
    | cons c cs =>
      rw [hl] at hdig
      have hc := isDigit_facts c (hdig c (List.mem_cons_self _ _))
      split
      · rename_i heq
        exact absurd (List.cons.inj heq).1 hc.2.1
      · rename_i heq
        exact absurd (List.cons.inj heq).1 hc.2.2
      · simp only [List.isEmpty_cons, Bool.not_false, Bool.true_and, List.all_eq_true]
        exact hdig
  | negSucc m =>
    obtain ⟨hne, hdig, -⟩ := toDigits_spec (m + 1)
    have hdata : (Int.repr (Int.negSucc m)).data = '-' :: Nat.toDigits 10 (m + 1) := rfl
    unfold is_decimal_numeral
    rw [hdata]
    simp only [Bool.and_eq_true, Bool.not_eq_true', List.isEmpty_eq_false, List.all_eq_true]
    exact ⟨hne, hdig⟩

theorem tolower_eq_repr (s : String) (n : Int) (h : Int.repr n = tolower s) :
    s = Int.repr n := by
  have hdata : s.data.map Char.toLower = (Int.repr n).data := by
    rw [h]
    rfl
  have hfix : ∀ c ∈ s.data, Char.toLower c = c := by
    intro c hc
    apply toLower_eq_self
    apply repr_chars n
    rw [← hdata]
    exact List.mem_map_of_mem _ hc
  have hmap : s.data.map Char.toLower = s.data := by
    conv_rhs => rw [← List.map_id s.data]
    exact List.map_congr_left hfix
  rw [hmap] at hdata
  exact String.ext hdata

theorem repr_ne_tolower (s : String) (n : Int) (h : is_decimal_numeral s = false) :
    Int.repr n ≠ tolower s := by
  intro heq
  rw [tolower_eq_repr s n heq, is_decimal_numeral_repr] at h
  exact Bool.noConfusion h

theorem selection_loop_fst_cases {α : Type} (ret : Int) (key : String) (l : List GpuOption)
    (s : Int × Process α) :
    ((selection_loop ret key l s).1 = s.1 ∧ ∀ q ∈ l, option_matches ret key q = false) ∨
      ∃ o ∈ l, option_matches ret key o = true ∧ (selection_loop ret key l s).1 = o.index := by
  induction l generalizing s with
  | nil => exact Or.inl ⟨rfl, fun q hq => absurd hq (List.not_mem_nil q)⟩
  | cons itr l ih =>
    obtain ⟨selection, p⟩ := s
    simp only [selection_loop]
    by_cases hm : option_matches ret key itr = true
    · rw [if_pos hm]
      rcases ih (itr.index, print_selection itr p) with ⟨h1, -⟩ | ⟨o, ho, hmo, h1⟩
      · exact Or.inr ⟨itr, List.mem_cons_self _ _, hm, h1⟩
      · exact Or.inr ⟨o, List.mem_cons_of_mem _ ho, hmo, h1⟩
    · rw [if_neg hm]
      rcases ih (selection, p) with ⟨h1, h2⟩ | ⟨o, ho, hmo, h1⟩
      · refine Or.inl ⟨h1, ?_⟩
        intro q hq
        rcases List.mem_cons.1 hq with rfl | hq
        · simpa using hm
        · exact h2 q hq
      · exact Or.inr ⟨o, List.mem_cons_of_mem _ ho, hmo, h1⟩

theorem compiled_options_keys (use_cuda use_openacc use_openmp : Bool) :
    ∀ o ∈ compiled_options use_cuda use_openacc use_openmp, is_decimal_numeral o.key = false := by
  cases use_cuda <;> cases use_openacc <;> cases use_openmp <;> decide

/-- C3: on a non-empty catalog whose keys are not decimal numerals, when the
configured key is the decimal string of an integer `n` in the range of `int`,
the loop selects index `n` if some option has it and the default (first) index
otherwise; either way the selected index is the index of an option of the
catalog.  (Distinctness and positivity of the indices are not needed.) -/
theorem selected_index_decimal_key {α : Type} (front : GpuOption) (rest : List GpuOption)
    (n : Int) (ret : Int) (p : Process α)
    (hkeys : ∀ o ∈ front :: rest, is_decimal_numeral o.key = false)
    (hmin : INT_MIN ≤ n) (hmax : n ≤ INT_MAX) :
    ((∃ o ∈ front :: rest, o.index = n) →
        selected_index front rest (some (Int.repr n)) ret p = n) ∧
      ((∀ o ∈ front :: rest, o.index ≠ n) →
        selected_index front rest (some (Int.repr n)) ret p = front.index) ∧
      ∃ o ∈ front :: rest, selected_index front rest (some (Int.repr n)) ret p = o.index := by
  have hm : ∀ o ∈ front :: rest,
      (option_matches ret (Int.repr n) o = true ↔ o.index = n) := by
    intro o ho
    have h1 := repr_ne_tolower o.key n (hkeys o ho)
    simp only [option_matches, from_string_repr ret n hmin hmax, Bool.or_eq_true, beq_iff_eq, h1,
      false_or]
    exact eq_comm
  have hcases := selection_loop_fst_cases ret (Int.repr n) (front :: rest)
    (front.index, print_options (front :: rest) p)
  have hsel : selected_index front rest (some (Int.repr n)) ret p =
      (selection_loop ret (Int.repr n) (front :: rest)
        (front.index, print_options (front :: rest) p)).1 := rfl
  rw [hsel]
  refine ⟨?_, ?_, ?_⟩
  · rintro ⟨o, ho, hon⟩
    rcases hcases with ⟨-, h2⟩ | ⟨o1, ho1, hmo1, h1⟩
    · have := (hm o ho).2 hon
      rw [h2 o ho] at this
      exact Bool.noConfusion this
    · rw [h1]
      exact (hm o1 ho1).1 hmo1
  · intro hno
    rcases hcases with ⟨h1, -⟩ | ⟨o1, ho1, hmo1, -⟩
    · exact h1
    · exact absurd ((hm o1 ho1).1 hmo1) (hno o1 ho1)
  · rcases hcases with ⟨h1, -⟩ | ⟨o1, ho1, -, h1⟩
    · exact ⟨front, List.mem_cons_self _ _, h1⟩
    · exact ⟨o1, ho1, h1⟩

/-- Instance of the decimal-key theorem for C3: catalog [(1, "alpha"),
(2, "beta")] and `n = 7`, whose decimal string "7" selects the default index 1. -/
theorem selected_index_decimal_key_witness :
    (∀ o ∈ [(⟨1, "alpha", ""⟩ : GpuOption), ⟨2, "beta", ""⟩],
        is_decimal_numeral o.key = false) ∧
      INT_MIN ≤ 7 ∧ (7 : Int) ≤ INT_MAX ∧ Int.repr 7 = "7" ∧
      (∀ o ∈ [(⟨1, "alpha", ""⟩ : GpuOption), ⟨2, "beta", ""⟩], o.index ≠ 7) ∧
      selected_index ⟨1, "alpha", ""⟩ [⟨2, "beta", ""⟩] (some (Int.repr 7)) 0
        (Process.initial Nat) = 1 :=
  ⟨by decide, by decide, by decide, by decide, by decide,
    (selected_index_decimal_key ⟨1, "alpha", ""⟩ [⟨2, "beta", ""⟩] 7 0 (Process.initial Nat)
      (by decide) (by decide) (by decide)).2.1 (by decide)⟩

/-! ## Keys that start with a number -/

theorem dropWhile_spaces_append (ws l : List Char) (hws : ∀ c ∈ ws, isspace c = true) :
    (ws ++ l).dropWhile isspace = l.dropWhile isspace := by
  induction ws with
  | nil => rfl
  | cons c ws ih =>
    rw [List.cons_append, List.dropWhile_cons_of_pos (hws c (List.mem_cons_self _ _))]
    exact ih (fun d hd => hws d (List.mem_cons_of_mem _ hd))

theorem takeWhile_digits_append (ds tail : List Char) (hds : ∀ c ∈ ds, Char.isDigit c = true)
    (htail : ∀ c ∈ tail.head?, Char.isDigit c = false) :
    (ds ++ tail).takeWhile Char.isDigit = ds := by
  induction ds with
  | nil =>
    cases tail with
    | nil => rfl
    | cons c t =>
      have hc : Char.isDigit c = false := htail c (by simp)
      simp [List.takeWhile_cons, hc]
  | cons d ds ih =>
    rw [List.cons_append, List.takeWhile_cons_of_pos (hds d (List.mem_cons_self _ _)),
      ih (fun c hc => hds c (List.mem_cons_of_mem _ hc))]

theorem from_string_head_value (ret : Int) (key : String) (ws sign ds tail : List Char)
    (hdata : key.data = ws ++ sign ++ ds ++ tail)
    (hws : ∀ c ∈ ws, isspace c = true)
    (hsign : sign = [] ∨ sign = ['+'] ∨ sign = ['-'])
    (hds : ∀ c ∈ ds, Char.isDigit c = true)
    (htail : ∀ c ∈ tail.head?, Char.isDigit c = false)
    (hhead : sign = [] → ds = [] →
      ∃ c t, tail = c :: t ∧ isspace c = false ∧ c ≠ '+' ∧ c ≠ '-') :
    from_string ret key = head_value sign ds := by
  have htake := takeWhile_digits_append ds tail hds htail
  unfold from_string
  rw [hdata, List.append_assoc, List.append_assoc, dropWhile_spaces_append _ _ hws]
  rcases hsign with rfl | rfl | rfl
  · cases ds with
    | nil =>
      obtain ⟨c, t, rfl, hc, hplus, hminus⟩ := hhead rfl rfl
      have hd : Char.isDigit c = false := htail c (by simp)
      rw [List.nil_append, List.nil_append, List.dropWhile_cons_of_neg (by simp [hc])]
      simp only
      unfold extract_int
      split
      · rename_i heq
        exact absurd (List.cons.inj heq).1 hminus
      · rename_i heq
        exact absurd (List.cons.inj heq).1 hplus
      · simp [List.takeWhile_cons, hd, head_value]
    | cons d ds =>
      have hdd := isDigit_facts d (hds d (List.mem_cons_self _ _))
      rw [List.nil_append, List.cons_append, List.dropWhile_cons_of_neg (by simp [hdd.1])]
      simp only
      rw [List.cons_append] at htake
      unfold extract_int
      split
      · rename_i heq
        exact absurd (List.cons.inj heq).1 hdd.2.1
      · rename_i heq
        exact absurd (List.cons.inj heq).1 hdd.2.2
      · simp [htake, head_value]
  · rw [List.singleton_append, List.dropWhile_cons_of_neg (by decide)]
    simp only [extract_int, htake, head_value]
    simp
  · rw [List.singleton_append, List.dropWhile_cons_of_neg (by decide)]
    simp only [extract_int, htake, head_value]
    simp

theorem selected_index_by_value {α : Type} (front : GpuOption) (rest : List GpuOption)
    (key : String) (ret : Int) (p : Process α) (v : Int)
    (hkey : ∀ o ∈ front :: rest, key ≠ tolower o.key) (hv : from_string ret key = v) :
    ((∀ o ∈ front :: rest, o.index ≠ v) →
        selected_index front rest (some key) ret p = front.index) ∧
      ((∃ o ∈ front :: rest, o.index = v) → selected_index front rest (some key) ret p = v) := by
  have hm : ∀ o ∈ front :: rest, (option_matches ret key o = true ↔ o.index = v) := by
    intro o ho
    simp only [option_matches, hv, Bool.or_eq_true, beq_iff_eq, hkey o ho, false_or]
    exact eq_comm
  have hcases := selection_loop_fst_cases ret key (front :: rest)
    (front.index, print_options (front :: rest) p)
  have hsel : selected_index front rest (some key) ret p =
      (selection_loop ret key (front :: rest)
        (front.index, print_options (front :: rest) p)).1 := rfl
  rw [hsel]
  refine ⟨?_, ?_⟩
  · intro hno
    rcases hcases with ⟨h1, -⟩ | ⟨o1, ho1, hmo1, -⟩
    · exact h1
    · exact absurd ((hm o1 ho1).1 hmo1) (hno o1 ho1)
  · rintro ⟨o, ho, hon⟩
    rcases hcases with ⟨-, h2⟩ | ⟨o1, ho1, hmo1, h1⟩
    · have := (hm o ho).2 hon
      rw [h2 o ho] at this
      exact Bool.noConfusion this
    · rw [h1]
      exact (hm o1 ho1).1 hmo1

/-- C6 (amended): take a non-empty catalog and a configured key that equals no
lower-cased option key and reads: white space `ws`, an optional sign, a run
`ds` of decimal digits, then `tail`, which does not go on with a digit (and,
when sign and digits are both missing, starts with a character that is neither
white space nor a sign).  Then the integer `from_string<int>` extracts, the one
the loop compares with the indices, is the signed value of `ds` brought into the
range of `int`, and 0 when `ds` is empty, whatever `tail` holds.  When no option
has that integer as index the default option, the first entry, is selected;
when one has, index that integer is selected. -/
theorem selected_index_numeric_head {α : Type} (front : GpuOption) (rest : List GpuOption)
    (key : String) (ret : Int) (p : Process α) (ws sign ds tail : List Char)
    (hdata : key.data = ws ++ sign ++ ds ++ tail)
    (hws : ∀ c ∈ ws, isspace c = true)
    (hsign : sign = [] ∨ sign = ['+'] ∨ sign = ['-'])
    (hds : ∀ c ∈ ds, Char.isDigit c = true)
    (htail : ∀ c ∈ tail.head?, Char.isDigit c = false)
    (hhead : sign = [] → ds = [] →
      ∃ c t, tail = c :: t ∧ isspace c = false ∧ c ≠ '+' ∧ c ≠ '-')
    (hkey : ∀ o ∈ front :: rest, key ≠ tolower o.key) :
    from_string ret key = head_value sign ds ∧
      ((∀ o ∈ front :: rest, o.index ≠ head_value sign ds) →
        selected_index front rest (some key) ret p = front.index) ∧
      ((∃ o ∈ front :: rest, o.index = head_value sign ds) →
        selected_index front rest (some key) ret p = head_value sign ds) := by
  have hv := from_string_head_value ret key ws sign ds tail hdata hws hsign hds htail hhead
  exact ⟨hv, selected_index_by_value front rest key ret p _ hkey hv⟩

/-- Instance of the theorem for C6: CUDA and OpenACC compiled in, key "cuda1",
which starts with no number: `from_string<int>` gives 0, no option has index 0,
and the default index 1 is selected. -/
theorem selected_index_numeric_head_witness :
    ("cuda1" : String).data = [] ++ [] ++ [] ++ ['c', 'u', 'd', 'a', '1'] ∧
      (∀ o ∈ compiled_options true true false, ("cuda1" : String) ≠ tolower o.key) ∧
      head_value [] [] = 0 ∧
      (∀ o ∈ compiled_options true true false, o.index ≠ head_value [] []) ∧
      from_string 5 "cuda1" = head_value [] [] ∧
      selected_index ⟨1, "cuda", "Run with CUDA"⟩ [⟨2, "openacc", "Run with OpenACC"⟩]
        (some "cuda1") 5 (Process.initial Nat) = 1 :=
  ⟨rfl, by decide, by decide, by decide,
    (selected_index_numeric_head ⟨1, "cuda", "Run with CUDA"⟩
      [⟨2, "openacc", "Run with OpenACC"⟩] "cuda1" 5 (Process.initial Nat) [] [] []
      ['c', 'u', 'd', 'a', '1'] rfl (by decide) (Or.inl rfl) (by decide) (by decide)
      (fun _ _ => ⟨'c', ['u', 'd', 'a', '1'], rfl, by decide, by decide, by decide⟩)
      (by decide)).1,
    (selected_index_numeric_head ⟨1, "cuda", "Run with CUDA"⟩
      [⟨2, "openacc", "Run with OpenACC"⟩] "cuda1" 5 (Process.initial Nat) [] [] []
      ['c', 'u', 'd', 'a', '1'] rfl (by decide) (Or.inl rfl) (by decide) (by decide)
      (fun _ _ => ⟨'c', ['u', 'd', 'a', '1'], rfl, by decide, by decide, by decide⟩)
      (by decide)).2.1 (by decide)⟩

/-! ## One-shot banners over a sequence of calls -/

theorem print_selection_twice {α : Type} (o1 o2 : GpuOption) (p : Process α) :
    print_selection o2 (print_selection o1 p) = print_selection o1 p := by
  unfold print_selection
  cases h : p.print_selection_first <;> simp [h]

theorem selection_loop_snd {α : Type} (ret : Int) (key : String) (l : List GpuOption)
    (selection : Int) (p : Process α) :
    (selection_loop ret key l (selection, p)).2 =
      match l.find? (option_matches ret key) with
      | none => p
      | some o => print_selection o p := by
  induction l generalizing selection p with
  | nil => rfl
  | cons itr l ih =>
    simp only [selection_loop, List.find?_cons]
    cases hm : option_matches ret key itr
    · simp only [Bool.false_eq_true, if_false]
      exact ih selection p
    · simp only [if_true]
      rw [ih]
      cases l.find? (option_matches ret key) with
      | none => rfl
      | some o => exact print_selection_twice itr o p

theorem try_block_banner_state {α : Type} (selection : Int)
    (cuda_func acc_func omp_func : α → Outcome) (args : α) (p : Process α) :
    (try_block selection cuda_func acc_func omp_func args p).2.cout = p.cout ∧
      (try_block selection cuda_func acc_func omp_func args p).2.print_options_first =
        p.print_options_first ∧
      (try_block selection cuda_func acc_func omp_func args p).2.print_selection_first =
        p.print_selection_first := by
  unfold try_block
  split_ifs <;> exact ⟨rfl, rfl, rfl⟩

theorem run_call_banner_state {α : Type} (front : GpuOption) (rest : List GpuOption)
    (c : Call α) (p : Process α) :
    (run_call (front :: rest) c p).2.cout =
        (selection_loop c.ret (GetEnv c.env front.key) (front :: rest)
          (front.index, print_options (front :: rest) p)).2.cout ∧
      (run_call (front :: rest) c p).2.print_options_first =
        (selection_loop c.ret (GetEnv c.env front.key) (front :: rest)
          (front.index, print_options (front :: rest) p)).2.print_options_first ∧
      (run_call (front :: rest) c p).2.print_selection_first =
        (selection_loop c.ret (GetEnv c.env front.key) (front :: rest)
          (front.index, print_options (front :: rest) p)).2.print_selection_first := by
  have ht := try_block_banner_state
    (selection_loop c.ret (GetEnv c.env front.key) (front :: rest)
      (front.index, print_options (front :: rest) p)).1 c.cuda_func c.acc_func c.omp_func c.args
    (selection_loop c.ret (GetEnv c.env front.key) (front :: rest)
      (front.index, print_options (front :: rest) p)).2
  simp only [run_call, run_gpu_algorithm]
  split
  · exact ht
  · exact ht

theorem call_matches_of_find {α : Type} (front : GpuOption) (rest : List GpuOption)
    (c : Call α) :
    (((front :: rest).find? (option_matches c.ret (GetEnv c.env front.key)) = none ∧
        call_matches (front :: rest) c = false) ∨
      ∃ o, (front :: rest).find? (option_matches c.ret (GetEnv c.env front.key)) = some o ∧
        call_matches (front :: rest) c = true) := by
  unfold call_matches
  cases hf : (front :: rest).find? (option_matches c.ret (GetEnv c.env front.key)) with
  | none =>
    refine Or.inl ⟨rfl, ?_⟩
    rw [List.find?_eq_none] at hf
    simpa using hf
  | some o =>
    refine Or.inr ⟨o, rfl, ?_⟩
    rw [List.any_eq_true]
    exact ⟨o, List.mem_of_find?_eq_some hf, List.find?_some hf⟩

theorem run_call_fresh {α : Type} (front : GpuOption) (rest : List GpuOption) (c : Call α) :
    banners_settled (front :: rest) (call_matches (front :: rest) c)
      (run_call (front :: rest) c (Process.initial α)).2 := by
  obtain ⟨h1, h2, h3⟩ := run_call_banner_state front rest c (Process.initial α)
  unfold banners_settled
  rw [h1, h2, h3, selection_loop_snd]
  rcases call_matches_of_find front rest c with ⟨hf, hm⟩ | ⟨o, hf, hm⟩
  · rw [hf, hm]
    exact ⟨rfl, Or.inl ⟨rfl, rfl, rfl⟩⟩
  · rw [hf, hm]
    exact ⟨rfl, Or.inr ⟨rfl, rfl, o, rfl⟩⟩

theorem run_call_settled {α : Type} (front : GpuOption) (rest : List GpuOption) (c : Call α)
    (matched : Bool) (p : Process α) (hp : banners_settled (front :: rest) matched p) :
    banners_settled (front :: rest) (matched || call_matches (front :: rest) c)
      (run_call (front :: rest) c p).2 := by
  obtain ⟨h1, h2, h3⟩ := run_call_banner_state front rest c p
  obtain ⟨hflag, hp⟩ := hp
  have hpo : print_options (front :: rest) p = p := by
    simp [print_options, hflag]
  unfold banners_settled
  rw [h1, h2, h3, selection_loop_snd, hpo]
  rcases call_matches_of_find front rest c with ⟨hf, hm⟩ | ⟨o, hf, hm⟩
  · rw [hf, hm, Bool.or_false]
    exact ⟨hflag, hp⟩
  · rw [hf, hm, Bool.or_true]
    rcases hp with ⟨-, hsel, hcout⟩ | ⟨-, hsel, o1, hcout⟩
    · refine ⟨?_, Or.inr ⟨rfl, ?_, o, ?_⟩⟩
      · simp [print_selection, hsel, hflag]
      · simp [print_selection, hsel]
      · simp [print_selection, hsel, hcout]
    · have hps : print_selection o p = p := by
        simp [print_selection, hsel]
      dsimp only
      rw [hps]
      exact ⟨hflag, Or.inr ⟨rfl, hsel, o1, hcout⟩⟩

theorem run_calls_settled {α : Type} (front : GpuOption) (rest : List GpuOption)
    (cs : List (Call α)) (matched : Bool) (p : Process α)
    (hp : banners_settled (front :: rest) matched p) :
    banners_settled (front :: rest) (matched || cs.any (call_matches (front :: rest)))
      (run_calls (front :: rest) cs p) := by
  induction cs generalizing matched p with
  | nil => simpa [run_calls] using hp
  | cons c cs ih =>
    have := ih _ _ (run_call_settled front rest c matched p hp)
    simpa [run_calls, Bool.or_assoc] using this

/-- C7 (amended): after one or more calls of `run_gpu_algorithm` on a non-empty
catalog in a fresh process, whatever the keys, `std::cout` holds the catalog
banner exactly once, as its first item, and the selected-option banner at most
once; it holds the selected-option banner exactly once if and only if, in some
call of the sequence, the key satisfied the loop condition for some option. -/
theorem run_calls_banners {α : Type} (front : GpuOption) (rest : List GpuOption) (c : Call α)
    (cs : List (Call α)) :
    (run_calls (front :: rest) (c :: cs) (Process.initial α)).cout.countP
        CoutItem.is_options_banner = 1 ∧
      (run_calls (front :: rest) (c :: cs) (Process.initial α)).cout.head? =
        some (CoutItem.options_banner (front :: rest)) ∧
      (run_calls (front :: rest) (c :: cs) (Process.initial α)).cout.countP
        CoutItem.is_selection_banner ≤ 1 ∧
      ((run_calls (front :: rest) (c :: cs) (Process.initial α)).cout.countP
          CoutItem.is_selection_banner = 1 ↔
        ∃ c1 ∈ c :: cs, call_matches (front :: rest) c1 = true) := by
  have h := run_calls_settled front rest cs _ _ (run_call_fresh front rest c)
  have hrun : run_calls (front :: rest) (c :: cs) (Process.initial α) =
      run_calls (front :: rest) cs (run_call (front :: rest) c (Process.initial α)).2 := rfl
  rw [hrun]
  have hany : (call_matches (front :: rest) c || cs.any (call_matches (front :: rest))) = true ↔
      ∃ c1 ∈ c :: cs, call_matches (front :: rest) c1 = true := by
    simp [List.any_eq_true]
  rw [← hany]
  obtain ⟨-, ⟨hm, -, hcout⟩ | ⟨hm, -, o, hcout⟩⟩ := h
  · rw [hcout, hm]
    simp [List.countP_cons, CoutItem.is_options_banner, CoutItem.is_selection_banner]
  · rw [hcout, hm]
    simp [List.countP_cons, CoutItem.is_options_banner, CoutItem.is_selection_banner]

/-- C7 (as stated) fails: one call in a fresh process of a CUDA-only build with
the key "bogus", which matches no option, selects the default and writes the
catalog banner but no selected-option banner. -/
theorem run_calls_no_selection_banner :
    (compiled_options true false false).any (option_matches 0 "bogus") = false ∧
      (run_calls (compiled_options true false false)
        [⟨some "bogus", 0, 0, fun _ => Outcome.returned, fun _ => Outcome.returned,
          fun _ => Outcome.returned, fun _ => Outcome.returned, (0 : Nat)⟩]
        (Process.initial Nat)).cout =
          [CoutItem.options_banner (compiled_options true false false)] ∧
      (run_calls (compiled_options true false false)
        [⟨some "bogus", 0, 0, fun _ => Outcome.returned, fun _ => Outcome.returned,
          fun _ => Outcome.returned, fun _ => Outcome.returned, (0 : Nat)⟩]
        (Process.initial Nat)).cout.countP CoutItem.is_selection_banner = 0 ∧
      (run_calls (compiled_options true false false)
        [⟨some "bogus", 0, 0, fun _ => Outcome.returned, fun _ => Outcome.returned,
          fun _ => Outcome.returned, fun _ => Outcome.returned, (0 : Nat)⟩]
        (Process.initial Nat)).calls = [(Backend.cuda, 0)] := by
  decide

/-! ## Start-up of a run manager -/

theorem init_banners_append (l1 l2 : List InitCoutItem) :
    init_banners (l1 ++ l2) = init_banners l1 ++ init_banners l2 := by
  induction l1 with
  | nil => rfl
  | cons x l1 ih =>
    cases x with
    | initializing tid n => simp [init_banners, ih]
    | verbose_line tp => simp [init_banners, ih]

theorem init_run_manager_ready (tid : Nat) (tasking_verbose : Int) (nthreads : Nat) (s : Runtime)
    (h : s.run_man.is_initialized = true) :
    (init_run_manager tid tasking_verbose nthreads s).run_man = s.run_man ∧
      init_banners (init_run_manager tid tasking_verbose nthreads s).cout =
        init_banners s.cout := by
  unfold init_run_manager
  simp only [TaskRunManager.IsInitialized, h, Bool.not_true, Bool.false_eq_true, if_false]
  split_ifs
  · exact ⟨rfl, by simp [init_banners_append, init_banners]⟩
  · exact ⟨rfl, rfl⟩

theorem init_run_manager_first (tid : Nat) (tasking_verbose : Int) (nthreads : Nat) (s : Runtime)
    (h : s.run_man.is_initialized = false) :
    (init_run_manager tid tasking_verbose nthreads s).run_man =
        s.run_man.Initialize nthreads ∧
      init_banners (init_run_manager tid tasking_verbose nthreads s).cout =
        init_banners s.cout ++ [(tid, nthreads)] := by
  unfold init_run_manager
  simp only [TaskRunManager.IsInitialized, h, Bool.not_false, if_true]
  split_ifs
  · exact ⟨rfl, by simp [init_banners_append, init_banners]⟩
  · exact ⟨rfl, by simp [init_banners_append, init_banners]⟩

theorem init_run_manager_calls_ready (cs : List InitCall) (s : Runtime)
    (h : s.run_man.is_initialized = true) :
    (init_run_manager_calls cs s).run_man = s.run_man ∧
      init_banners (init_run_manager_calls cs s).cout = init_banners s.cout := by
  induction cs generalizing s with
  | nil => exact ⟨rfl, rfl⟩
  | cons c cs ih =>
    obtain ⟨h1, h2⟩ := init_run_manager_ready c.tid c.tasking_verbose c.nthreads s h
    obtain ⟨h3, h4⟩ := ih (init_run_manager c.tid c.tasking_verbose c.nthreads s) (by rw [h1, h])
    simp only [init_run_manager_calls]
    exact ⟨h3.trans h1, h4.trans h2⟩

/-- C8: for a run manager modelled with an initialized bit that `Initialize`
sets and nothing clears, and any sequence `c :: cs` of `init_run_manager` calls
on it from the uninitialized state: the manager is initialized afterwards,
`Initialize` has been invoked exactly once, with the thread count of the first
call, exactly one initialization banner has been printed, by the first call;
and any further call `d` leaves the manager as it is and prints no banner.
As `cs` is arbitrary this holds after every call of the sequence. -/
theorem init_run_manager_calls_once (thread_pool : Nat) (c : InitCall) (cs : List InitCall)
    (d : InitCall) :
    (init_run_manager_calls (c :: cs) (Runtime.fresh thread_pool)).run_man.is_initialized =
        true ∧
      (init_run_manager_calls (c :: cs) (Runtime.fresh thread_pool)).run_man.initialize_args =
        [c.nthreads] ∧
      init_banners (init_run_manager_calls (c :: cs) (Runtime.fresh thread_pool)).cout =
        [(c.tid, c.nthreads)] ∧
      (init_run_manager d.tid d.tasking_verbose d.nthreads
          (init_run_manager_calls (c :: cs) (Runtime.fresh thread_pool))).run_man =
        (init_run_manager_calls (c :: cs) (Runtime.fresh thread_pool)).run_man ∧
      init_banners (init_run_manager d.tid d.tasking_verbose d.nthreads
          (init_run_manager_calls (c :: cs) (Runtime.fresh thread_pool))).cout =
        init_banners (init_run_manager_calls (c :: cs) (Runtime.fresh thread_pool)).cout := by
  obtain ⟨h1, h2⟩ :=
    init_run_manager_first c.tid c.tasking_verbose c.nthreads (Runtime.fresh thread_pool) rfl
  have hinit : (init_run_manager c.tid c.tasking_verbose c.nthreads
      (Runtime.fresh thread_pool)).run_man.is_initialized = true := by
    rw [h1]
    rfl
  obtain ⟨h3, h4⟩ := init_run_manager_calls_ready cs _ hinit
  have hrun : init_run_manager_calls (c :: cs) (Runtime.fresh thread_pool) =
      init_run_manager_calls cs
        (init_run_manager c.tid c.tasking_verbose c.nthreads (Runtime.fresh thread_pool)) := rfl
  have hready : (init_run_manager_calls (c :: cs)
      (Runtime.fresh thread_pool)).run_man.is_initialized = true := by
    rw [hrun, h3, hinit]
  obtain ⟨h5, h6⟩ := init_run_manager_ready d.tid d.tasking_verbose d.nthreads _ hready
  refine ⟨hready, ?_, ?_, h5, h6⟩
  · rw [hrun, h3, h1]
    rfl
  · rw [hrun, h4, h2]
    rfl

end Tomopy
